import Mathlib

/-!
Verification of the umpy Library-of-Congress batch download scripts
(`loc_maps.py` and `loc_sanborn_maps.py`).

The development shallowly embeds the string-, regex- and loop-level logic
of the two scripts: Python's `str`, `str.zfill`, `''.join`,
`pathlib.Path.with_suffix`, `re.sub` (global, leftmost, non-overlapping
substitution), the filename builders (`create_filename` of each script),
the identifier/url construction and the per-item fetch/write/log loop of
each `main`.  HTTP fetching is modelled by an oracle
`String → Except String PyResponse`: an `Except.error` models a raised
network-level exception of `requests.get`, an `Except.ok` models a
returned response (with status code and body); the source never installs
an exception handler, so an error aborts the loop.
-/

set_option maxRecDepth 8192

/-! ### Python string primitives -/

/-- The character for a decimal digit, as produced by Python's `str` on ints. -/
def digitChar (d : Nat) : Char := Char.ofNat (48 + d)

/-- Decimal digits of `n`, most significant first (fuel-indexed helper;
`fuel > n` suffices). -/
def decDigitsAux : Nat → Nat → List Char
| 0, _ => []
| fuel + 1, n =>
  if n < 10 then [digitChar n]
  else decDigitsAux fuel (n / 10) ++ [digitChar (n % 10)]

/-- Python `str(n)` for a non-negative integer. -/
def pyStr (n : Nat) : String := String.mk (decDigitsAux (n + 1) n)

/-- Numeric value of a decimal digit character. -/
def digitVal (c : Char) : Nat := c.toNat - 48

/-- Value of a decimal digit string (leading zeros are insignificant). -/
def digitsVal (cs : List Char) : Nat := cs.foldl (fun acc c => 10 * acc + digitVal c) 0

/-- Python `s.zfill(width)`: left-fill with `'0'` to `width`; a string at
least `width` long is returned unchanged; a leading sign is kept in front
of the padding. -/
def pyZfill (s : String) (width : Nat) : String :=
  if width ≤ s.data.length then s
  else
    match s.data with
    | [] => String.mk (List.replicate width '0')
    | c :: rest =>
      if c = '+' ∨ c = '-' then
        String.mk (c :: (List.replicate (width - s.data.length) '0' ++ rest))
      else String.mk (List.replicate (width - s.data.length) '0' ++ s.data)

/-- The `if len(num) < 4: num = num.zfill(4)` step shared by both
`create_filename` implementations. -/
def pad4 (num : String) : String :=
  if num.data.length < 4 then pyZfill num 4 else num

/-- `'-'.join(segments)` (Python `str.join`). -/
def pyJoin (sep : String) : List String → String
| [] => String.mk []
| [s] => s
| s :: s2 :: rest => s ++ sep ++ pyJoin sep (s2 :: rest)

/-- `pathlib.Path(s).with_suffix(ext)` for a single-component path: the
suffix starts at the last `'.'` of the name provided that dot is neither
the first nor the last character; the suffix (if any) is dropped and
`ext` is appended. -/
def pyWithSuffix (s : String) (ext : String) : String :=
  match s.data.reverse.findIdx? (fun c => c == '.') with
  | none => s ++ ext
  | some rpos =>
    if 0 < s.data.length - 1 - rpos ∧ s.data.length - 1 - rpos < s.data.length - 1 then
      String.mk (s.data.take (s.data.length - 1 - rpos)) ++ ext
    else s ++ ext

/-! ### A regex engine modelling the `re` usage of the scripts

`matchSufs fuel r s` lists, in backtracking priority order (alternation
left-biased, star greedy), the suffixes of `s` that remain after `r`
matches a prefix of `s`.  Repetition only continues after consuming at
least one character (Python stops repeating on an empty match).  The
fuel only limits recursion depth; `matchTop` supplies a bound that is
never reached by the patterns considered. -/

inductive Regex where
| eps : Regex
| char (c : Char) : Regex
| cls (cs : List Char) : Regex
| concat (r1 r2 : Regex) : Regex
| alt (r1 r2 : Regex) : Regex
| star (r : Regex) : Regex
deriving DecidableEq

/-- Structural size of a regex (at least 1). -/
def Regex.size : Regex → Nat
| .eps => 1
| .char _ => 1
| .cls _ => 1
| .concat a b => a.size + b.size + 1
| .alt a b => a.size + b.size + 1
| .star r => r.size + 1

/-- Concatenation of the lists produced by `f` (the nested-loop shape of
the scripts' iteration, and the monadic bind of the matcher). -/
def flatMapL {α β : Type} (f : α → List β) : List α → List β
| [] => []
| a :: as => f a ++ flatMapL f as

/-- Suffixes remaining after a prefix match, in priority order. -/
def matchSufs : Nat → Regex → List Char → List (List Char)
| 0, _, _ => []
| _ + 1, .eps, s => [s]
| _ + 1, .char _, [] => []
| _ + 1, .char c, a :: rest => if a = c then [rest] else []
| _ + 1, .cls _, [] => []
| _ + 1, .cls cs, a :: rest => if cs.contains a then [rest] else []
| fuel + 1, .concat r1 r2, s => flatMapL (fun s2 => matchSufs fuel r2 s2) (matchSufs fuel r1 s)
| fuel + 1, .alt r1 r2, s => matchSufs fuel r1 s ++ matchSufs fuel r2 s
| fuel + 1, .star r, s =>
  flatMapL (fun s2 => matchSufs fuel (.star r) s2)
    ((matchSufs fuel r s).filter (fun s2 => decide (s2.length < s.length))) ++ [s]

/-- Match attempt at the start of `s`, with ample fuel. -/
def matchTop (r : Regex) (s : List Char) : List (List Char) :=
  matchSufs ((s.length + 1) * (r.size + 1)) r s

/-- `true` iff the regex matches at no position of `s` (the guard of the
documented no-op property of `re.sub`). -/
def matchesNowhereB (r : Regex) (s : List Char) : Bool :=
  (List.range (s.length + 1)).all (fun k => (matchTop r (s.drop k)).isEmpty)

/-- Scan of `re.sub`: at each position the leftmost match is replaced
(greedy, non-overlapping, global); where nothing matches, one character
is copied and the scan advances; an empty match inserts the replacement
and copies one character.  `fuel > s.length` suffices. -/
def pySubAux : Nat → Regex → List Char → List Char → List Char
| 0, _, _, s => s
| fuel + 1, r, repl, s =>
  match (matchTop r s).head? with
  | some s2 =>
    if s2.length < s.length then repl ++ pySubAux fuel r repl s2
    else
      repl ++ (match s with
      | [] => []
      | c :: rest => c :: pySubAux fuel r repl rest)
  | none =>
    match s with
    | [] => []
    | c :: rest => c :: pySubAux fuel r repl rest

/-- Python `re.sub(r, repl, s)` (replacement text is not rescanned). -/
def pySub (r : Regex) (repl s : String) : String :=
  String.mk (pySubAux (s.data.length + 1) r repl.data s.data)

/-- The two-literal pattern `c1 c2` (such as `_X`), used as a concrete regex. -/
def litCC (c1 c2 : Char) : Regex := .concat (.char c1) (.char c2)

/-- Closed form of a `litCC` match attempt at the start of a string. -/
def ccMatch (c1 c2 : Char) : List Char → List (List Char)
| a :: b :: t => if a = c1 then (if b = c2 then [t] else []) else []
| _ => []

/-! ### loc_maps.py and loc_sanborn_maps.py definitions -/

/-- `loc_maps.py` main loop: `num = str(i); if zfill_width > 0: num = num.zfill(zfill_width)`. -/
def locNum (zfill_width : Nat) (i : Nat) : String :=
  if 0 < zfill_width then pyZfill (pyStr i) zfill_width else pyStr i

/-- `loc_sanborn_maps.py` main loop: `num = str(i); if pad: num = num.zfill(4)`. -/
def sanbornNum (pad : Bool) (i : Nat) : String :=
  if pad then pyZfill (pyStr i) 4 else pyStr i

/-- `loc_maps.py`: `repl = f"{prefix}{num}"` (the replacement token). -/
def locRepl (pfx : String) (zfill_width i : Nat) : String := pfx ++ locNum zfill_width i

/-- The `filename_segments` block of `loc_maps_config.yml`:
`name` (list of strings), optional `year`, optional `vol`; Python
truthiness makes `0`, `None` and `''` falsy. -/
structure FilenameSegments where
  name : List String
  year : Option Nat
  vol : Option String
deriving DecidableEq

/-- `if name_segments['year']: segments.append(str(name_segments['year']))`. -/
def appendIfYear (segs : List String) : Option Nat → List String
| some y => if y ≠ 0 then segs ++ [pyStr y] else segs
| none => segs

/-- `if name_segments['vol']: segments.append(f"vol_{name_segments['vol']}")`. -/
def appendIfVol (segs : List String) : Option String → List String
| some v => if v ≠ "" then segs ++ [ "vol_" ++ v ] else segs
| none => segs

/-- `if part: segments.append(part)`. -/
def appendIfStr (segs : List String) : Option String → List String
| some p => if p ≠ "" then segs ++ [p] else segs
| none => segs

/-- `if num: ...pad...; segments.append(num)`. -/
def appendIfNum (segs : List String) : Option String → List String
| some n => if n ≠ "" then segs ++ [pad4 n] else segs
| none => segs

/-- `create_filename` of `loc_maps.py`: base segments, optional year,
optional `vol_` segment; early return for `.log`; for other extensions
the `vol_` segment is appended (again, mirroring the source's second
`if name_segments['vol']` block), then `part`, then the min-width-4
padded `num`; joined with `'-'` and passed through `Path.with_suffix`. -/
def loc_create_filename (segs : FilenameSegments) (part : Option String)
    (num : Option String) (ext : String) : String :=
  if ext = ".log" then
    pyWithSuffix (pyJoin ("-") (appendIfVol (appendIfYear segs.name segs.year) segs.vol)) ext
  else
    pyWithSuffix (pyJoin ("-")
      (appendIfNum (appendIfStr
        (appendIfVol (appendIfVol (appendIfYear segs.name segs.year) segs.vol) segs.vol)
        part) num)) ext

/-- A municipality entry of `loc_sanborn_params.yml`. -/
structure Municipality where
  name : String
  state : String
  year : Nat
  vol : Option String
  extension : String
deriving DecidableEq

/-- The `filename = 'Sanborn-LOC'` ... `+= f"-{name}-{state}-{year}"` stem
of `loc_sanborn_maps.py`'s `create_filename`. -/
def sanbornStem (m : Municipality) : String :=
  "Sanborn-LOC" ++ "-" ++ m.name ++ "-" ++ m.state ++ "-" ++ pyStr m.year

/-- `if municipality['vol']: filename += f"-vol_{municipality['vol']}"`. -/
def sanbornWithVol (m : Municipality) : String :=
  match m.vol with
  | some v => if v ≠ "" then sanbornStem m ++ "-vol_" ++ v else sanbornStem m
  | none => sanbornStem m

/-- `if part: filename += f"-{part}"`. -/
def sanbornWithPart (m : Municipality) (part : Option String) : String :=
  match part with
  | some p => if p ≠ "" then sanbornWithVol m ++ "-" ++ p else sanbornWithVol m
  | none => sanbornWithVol m

/-- `create_filename` of `loc_sanborn_maps.py`: fixed `Sanborn-LOC` stem,
name, state, year, optional `vol_` segment, optional part, then the
min-width-4 padded image id and `.extension`. -/
def sanborn_create_filename (m : Municipality) (image_id : String)
    (part : Option String) : String :=
  sanbornWithPart m part ++ "-" ++ pad4 image_id ++ "." ++ m.extension

/-- One `paths` entry of `loc_maps_config.yml` (`pfx` models the YAML
`prefix` key). -/
structure LocPathGroup where
  pfx : String
  part : Option String
  default_path : String
  regex : Regex
  zfill_width : Nat
  index_start : Nat
  index_stop : Nat

/-- Python `range(start, stop, 1)` over non-negative bounds. -/
def pyRange (start stop : Nat) : List Nat :=
  (List.range (stop - start)).map (fun j => start + j)

/-- `resource_url = f"{host}{regex.sub(repl, default_path)}"` of `loc_maps.py`. -/
def locUrl (host : String) (g : LocPathGroup) (i : Nat) : String :=
  host ++ pySub g.regex (locRepl g.pfx g.zfill_width i) g.default_path

/-- The same resource-url pipeline of `loc_sanborn_maps.py`. -/
def sanbornUrl (host pfx : String) (rgx : Regex) (dp : String) (pad : Bool) (i : Nat) : String :=
  host ++ pySub rgx (pfx ++ sanbornNum pad i) dp

/-- The image filename `loc_maps.py` builds for index `i`:
`create_filename(filename_segments, part, num)` with the already
`zfill_width`-padded `num`. -/
def locImageFilename (segs : FilenameSegments) (part : Option String) (w i : Nat) : String :=
  loc_create_filename segs part (some (locNum w i)) (".jpg")

/-- The image filename `loc_sanborn_maps.py` builds for index `i`. -/
def sanbornImageFilename (m : Municipality) (part : Option String) (pad : Bool) (i : Nat) : String :=
  sanborn_create_filename m (sanbornNum pad i) part

/-- The (url, filename) sequence of `loc_maps.py`'s nested loops, in
group order then ascending index order. -/
def locItems (host : String) (segs : FilenameSegments) (paths : List LocPathGroup) :
    List (String × String) :=
  flatMapL (fun g => (pyRange g.index_start g.index_stop).map
    (fun i => (locUrl host g i, locImageFilename segs g.part g.zfill_width i))) paths

/-- A `requests` response: status code and body.  The scripts read only
`response.content`. -/
structure PyResponse where
  status : Nat
  content : String
deriving DecidableEq

/-- Run-log records (timestamps elided): the start marker, one
`Renamed file to ...` info line per written file, and the end marker. -/
inductive LogEntry where
| startRun : LogEntry
| renamed (filename : String) : LogEntry
| endRun : LogEntry
deriving DecidableEq

/-- The per-item loop body of both scripts: fetch, write the body under
the built filename, log the rename.  Returns the written files, the
per-item log lines, and the exception (if one was raised), in which case
the loop stops with nothing further executed. -/
def runLoop (fetch : String → Except String PyResponse) :
    List (String × String) → List (String × String) × List LogEntry × Option String
| [] => ([], [], none)
| (url, fn) :: rest =>
  match fetch url with
  | .error e => ([], [], some e)
  | .ok r =>
    let out := runLoop fetch rest
    ((fn, r.content) :: out.1, LogEntry.renamed fn :: out.2.1, out.2.2)

/-- The urls actually passed to `requests.get`: every url up to and
including the first one whose fetch raises. -/
def attemptsLoop (fetch : String → Except String PyResponse) :
    List (String × String) → List String
| [] => []
| (url, _) :: rest =>
  url :: (match fetch url with
  | .error _ => []
  | .ok _ => attemptsLoop fetch rest)

/-- `main` of `loc_maps.py` after configuration: start log, the nested
fetch loop, and the end log (only reached when no fetch raised). -/
def locRun (fetch : String → Except String PyResponse) (host : String)
    (segs : FilenameSegments) (paths : List LocPathGroup) :
    List (String × String) × List LogEntry × Option String :=
  let out := runLoop fetch (locItems host segs paths)
  (out.1,
   (LogEntry.startRun :: out.2.1) ++ (match out.2.2 with
     | none => [LogEntry.endRun]
     | some _ => []),
   out.2.2)

/-- Replace the status of every response of an oracle (used to state that
the runner never inspects status codes). -/
def overrideStatus (s : Nat) (fetch : String → Except String PyResponse) :
    String → Except String PyResponse :=
  fun u =>
    match fetch u with
    | .error e => .error e
    | .ok r => .ok ⟨s, r.content⟩

/-- `true` iff the string contains no `'.'`. -/
def noDotB (s : String) : Bool := !(s.data.contains '.')

/-- `true` iff no naming segment passed to the loc builder contains a `'.'`. -/
def dotFreeB (segs : FilenameSegments) (part : Option String) : Bool :=
  segs.name.all noDotB &&
  (match segs.vol with | some v => noDotB v | none => true) &&
  (match part with | some p => noDotB p | none => true)

/-- `k` copies of a character list, concatenated. -/
def listRep (xs : List Char) : Nat → List Char
| 0 => []
| k + 1 => xs ++ listRep xs k

/-! ### Concrete configurations and oracles used as test inputs -/

/-- A minimal `filename_segments` block. -/
def demoSegs : FilenameSegments := ⟨[("m")], none, none⟩

/-- Two path groups, indices 1..2 and 1..1, `zfill_width = 4`. -/
def demoPathsA : List LocPathGroup :=
  [⟨("p"), none, ("/A_X"), litCC '_' 'X', 4, 1, 3⟩,
   ⟨("p"), none, ("/B_X"), litCC '_' 'X', 4, 1, 2⟩]

/-- A single path group with one index. -/
def demoPathsOne : List LocPathGroup :=
  [⟨("p"), none, ("/A_X"), litCC '_' 'X', 4, 1, 2⟩]

/-- A single path group, indices 1..2, no zero fill. -/
def demoPathsC : List LocPathGroup :=
  [⟨("q"), none, ("/C_X"), litCC '_' 'X', 0, 1, 3⟩]

/-- An oracle raising a network error exactly on the second url of
`demoPathsA`'s first group. -/
def demoFetchBoom : String → Except String PyResponse :=
  fun u => if u = "h/Ap0002" then Except.error ("boom") else Except.ok ⟨200, ("B")⟩

/-- An oracle whose every fetch raises. -/
def demoFetchErr : String → Except String PyResponse := fun _ => Except.error ("boom")

/-- An oracle raising exactly on the first url of `demoPathsC`. -/
def demoFetchDown : String → Except String PyResponse :=
  fun u => if u = "h/Cq1" then Except.error ("down") else Except.ok ⟨200, ("B")⟩

/-- An oracle whose every fetch returns a response. -/
def demoFetchOk : String → Except String PyResponse := fun _ => Except.ok ⟨200, ("B")⟩

/-- An oracle returning a 404 error page for `u2` and a 200 page otherwise. -/
def demoFetch : String → Except String PyResponse :=
  fun u => if u = "u2" then Except.ok ⟨404, ("ERRPAGE")⟩ else Except.ok ⟨200, ("OK")⟩

/-! ### Helper lemmas: strings, digits, zfill -/

theorem data_append (a b : String) : (a ++ b).data = a.data ++ b.data := rfl

theorem string_eq_of_data {a b : String} (h : a.data = b.data) : a = b := by
  cases a; cases b; exact congrArg String.mk h

theorem digitVal_digitChar {d : Nat} (h : d < 10) : digitVal (digitChar d) = d := by
  interval_cases d <;> decide

theorem digitChar_not_special {d : Nat} (h : d < 10) :
    digitChar d ≠ '+' ∧ digitChar d ≠ '-' ∧ digitChar d ≠ '.' := by
  interval_cases d <;> exact ⟨by decide, by decide, by decide⟩

theorem decDigitsAux_ne_nil : ∀ fuel n, n < fuel → decDigitsAux fuel n ≠ [] := by
  intro fuel
  induction fuel with
  | zero => intro n h; omega
  | succ f _ =>
    intro n _
    unfold decDigitsAux
    by_cases h10 : n < 10
    · simp [h10]
    · simp [h10]

theorem decDigitsAux_mem : ∀ fuel n c, n < fuel → c ∈ decDigitsAux fuel n →
    ∃ d, d < 10 ∧ c = digitChar d := by
  intro fuel
  induction fuel with
  | zero => intro n c h; omega
  | succ f ih =>
    intro n c h hc
    unfold decDigitsAux at hc
    by_cases h10 : n < 10
    · simp [h10] at hc
      exact ⟨n, h10, hc⟩
    · simp [h10, List.mem_append] at hc
      rcases hc with hc | hc
      · have hdiv : n / 10 < f := by
          have h1 : 0 < n := by omega
          have := Nat.div_lt_self h1 (by norm_num : 1 < 10)
          omega
        exact ih (n / 10) c hdiv hc
      · exact ⟨n % 10, Nat.mod_lt n (by norm_num), hc⟩

theorem digitsVal_append_singleton (xs : List Char) (c : Char) :
    digitsVal (xs ++ [c]) = 10 * digitsVal xs + digitVal c := by
  simp [digitsVal, List.foldl_append]

theorem decDigitsAux_val : ∀ fuel n, n < fuel → digitsVal (decDigitsAux fuel n) = n := by
  intro fuel
  induction fuel with
  | zero => intro n h; omega
  | succ f ih =>
    intro n h
    unfold decDigitsAux
    by_cases h10 : n < 10
    · simp [h10, digitsVal, digitVal_digitChar h10]
    · have hdiv : n / 10 < f := by
        have h1 : 0 < n := by omega
        have := Nat.div_lt_self h1 (by norm_num : 1 < 10)
        omega
      rw [if_neg h10, digitsVal_append_singleton, ih (n / 10) hdiv,
        digitVal_digitChar (Nat.mod_lt n (by norm_num))]
      omega

theorem pyStr_data_ne_nil (i : Nat) : (pyStr i).data ≠ [] :=
  decDigitsAux_ne_nil (i + 1) i (by omega)

theorem pyStr_val (i : Nat) : digitsVal (pyStr i).data = i :=
  decDigitsAux_val (i + 1) i (by omega)

theorem pyStr_mem (i : Nat) (c : Char) (hc : c ∈ (pyStr i).data) :
    ∃ d, d < 10 ∧ c = digitChar d :=
  decDigitsAux_mem (i + 1) i c (by omega) hc

theorem repl_digit_head_not_sign (a i : Nat) :
    ∀ c, (List.replicate a '0' ++ (pyStr i).data).head? = some c → ¬(c = '+' ∨ c = '-') := by
  intro c hc hsign
  cases a with
  | zero =>
    simp only [List.replicate, List.nil_append] at hc
    have hmem : c ∈ (pyStr i).data := by
      cases hd : (pyStr i).data with
      | nil => rw [hd] at hc; simp at hc
      | cons x xs =>
        rw [hd] at hc
        simp at hc
        simp [hd, hc]
    obtain ⟨d, hd10, rfl⟩ := pyStr_mem i c hmem
    rcases hsign with h | h
    · exact (digitChar_not_special hd10).1 h
    · exact (digitChar_not_special hd10).2.1 h
  | succ k =>
    rw [List.replicate_succ] at hc
    simp at hc
    rcases hsign with h | h <;> (rw [← hc] at h; exact absurd h (by decide))

theorem pyZfill_data_of_not_sign (s : String) (w : Nat)
    (h : ∀ c, s.data.head? = some c → ¬(c = '+' ∨ c = '-')) :
    (pyZfill s w).data = List.replicate (w - s.data.length) '0' ++ s.data := by
  unfold pyZfill
  by_cases hw : w ≤ s.data.length
  · rw [if_pos hw, Nat.sub_eq_zero_of_le hw]
    simp
  · rw [if_neg hw]
    cases hd : s.data with
    | nil => simp
    | cons c rest =>
      have hns := h c (by rw [hd]; rfl)
      dsimp only
      rw [if_neg hns]

theorem locNum_data (w i : Nat) :
    (locNum w i).data = List.replicate (w - (pyStr i).data.length) '0' ++ (pyStr i).data := by
  unfold locNum
  by_cases hw : 0 < w
  · rw [if_pos hw]
    exact pyZfill_data_of_not_sign _ _ (by simpa using repl_digit_head_not_sign 0 i)
  · rw [if_neg hw]
    have hw0 : w = 0 := by omega
    subst hw0
    simp

theorem sanbornNum_eq_locNum (pad : Bool) (i : Nat) :
    sanbornNum pad i = locNum (if pad then 4 else 0) i := by
  cases pad <;> simp [sanbornNum, locNum]

theorem locNum_ne_empty (w i : Nat) : locNum w i ≠ "" := by
  intro h
  have := congrArg String.data h
  rw [locNum_data] at this
  simp at this
  exact pyStr_data_ne_nil i this.2

theorem pad4_repl_data (a i : Nat) :
    (pad4 (String.mk (List.replicate a '0' ++ (pyStr i).data))).data
      = List.replicate (max 4 (a + (pyStr i).data.length) - (pyStr i).data.length) '0'
          ++ (pyStr i).data := by
  unfold pad4
  have hlen : (String.mk (List.replicate a '0' ++ (pyStr i).data)).data.length
      = a + (pyStr i).data.length := by simp
  by_cases hc : a + (pyStr i).data.length < 4
  · rw [if_pos (by rw [hlen]; exact hc)]
    rw [pyZfill_data_of_not_sign _ _ (repl_digit_head_not_sign a i), hlen]
    show List.replicate (4 - (a + (pyStr i).data.length)) '0'
        ++ (List.replicate a '0' ++ (pyStr i).data) = _
    rw [← List.append_assoc, ← List.replicate_add]
    have harith : 4 - (a + (pyStr i).data.length) + a
        = max 4 (a + (pyStr i).data.length) - (pyStr i).data.length := by omega
    rw [harith]
  · rw [if_neg (by rw [hlen]; exact hc)]
    have harith : max 4 (a + (pyStr i).data.length) - (pyStr i).data.length = a := by omega
    rw [harith]

theorem pad4_locNum_data (w i : Nat) :
    (pad4 (locNum w i)).data
      = List.replicate (max 4 (max w (pyStr i).data.length) - (pyStr i).data.length) '0'
          ++ (pyStr i).data := by
  have h1 : locNum w i
      = String.mk (List.replicate (w - (pyStr i).data.length) '0' ++ (pyStr i).data) :=
    string_eq_of_data (by rw [locNum_data])
  rw [h1, pad4_repl_data]
  have harith : max 4 (w - (pyStr i).data.length + (pyStr i).data.length)
      = max 4 (max w (pyStr i).data.length) := by omega
  rw [harith]

theorem digitsVal_replicate_zero (k : Nat) (l : List Char) :
    digitsVal (List.replicate k '0' ++ l) = digitsVal l := by
  induction k with
  | zero => simp
  | succ n ih =>
    rw [List.replicate_succ, List.cons_append]
    show List.foldl _ (10 * 0 + digitVal '0') _ = _
    have h0 : 10 * 0 + digitVal '0' = 0 := by decide
    rw [h0]
    exact ih

theorem parse_pad4_locNum (w i : Nat) : digitsVal (pad4 (locNum w i)).data = i := by
  rw [pad4_locNum_data, digitsVal_replicate_zero, pyStr_val]

theorem pad4_locNum_inj {w i j : Nat} (h : pad4 (locNum w i) = pad4 (locNum w j)) : i = j := by
  have h2 := congrArg (fun s => digitsVal s.data) h
  simpa [parse_pad4_locNum] using h2

/-! ### Helper lemmas: the regex engine and `re.sub` -/

theorem matchSufs_cc (f : Nat) (hf : 2 ≤ f) (c1 c2 : Char) (s : List Char) :
    matchSufs f (litCC c1 c2) s = ccMatch c1 c2 s := by
  obtain ⟨f2, rfl⟩ : ∃ f2, f = f2 + 2 := ⟨f - 2, by omega⟩
  cases s with
  | nil => simp [litCC, ccMatch, matchSufs, flatMapL]
  | cons a t =>
    cases t with
    | nil =>
      by_cases h1 : a = c1 <;> simp [litCC, ccMatch, matchSufs, flatMapL, h1]
    | cons b u =>
      by_cases h1 : a = c1 <;> by_cases h2 : b = c2 <;>
        simp [litCC, ccMatch, matchSufs, flatMapL, h1, h2]

theorem matchTop_cc (c1 c2 : Char) (s : List Char) :
    matchTop (litCC c1 c2) s = ccMatch c1 c2 s := by
  apply matchSufs_cc
  show 2 ≤ (s.length + 1) * (Regex.size (litCC c1 c2) + 1)
  have hs : Regex.size (litCC c1 c2) = 3 := rfl
  rw [hs]
  omega

theorem pySubAux_id (r : Regex) (repl : List Char) :
    ∀ fuel s, s.length < fuel → (∀ k, k ≤ s.length → matchTop r (s.drop k) = []) →
      pySubAux fuel r repl s = s := by
  intro fuel
  induction fuel with
  | zero => intro s h; omega
  | succ f ih =>
    intro s hlen hnm
    have h0 : matchTop r s = [] := by simpa using hnm 0 (by omega)
    cases s with
    | nil =>
      show pySubAux (f + 1) r repl [] = []
      simp [pySubAux, h0]
    | cons c rest =>
      show pySubAux (f + 1) r repl (c :: rest) = c :: rest
      simp only [pySubAux, h0, List.head?_nil]
      exact congrArg (c :: ·)
        (ih rest (by simp at hlen; omega)
          (fun k hk => by simpa using hnm (k + 1) (by simp; omega)))

theorem pySub_id (r : Regex) (repl s : String) (h : matchesNowhereB r s.data = true) :
    pySub r repl s = s := by
  apply string_eq_of_data
  show pySubAux (s.data.length + 1) r repl.data s.data = s.data
  apply pySubAux_id r repl.data (s.data.length + 1) s.data (by omega)
  intro k hk
  have hall := List.all_eq_true.mp h k (by rw [List.mem_range]; omega)
  cases he : matchTop r (s.data.drop k) with
  | nil => rfl
  | cons x xs => rw [he] at hall; simp at hall

theorem listRep_length (xs : List Char) : ∀ k, (listRep xs k).length = xs.length * k := by
  intro k
  induction k with
  | zero => simp [listRep]
  | succ n ih => simp [listRep, ih]; ring

theorem pySubAux_step_nomatch (f : Nat) (r : Regex) (p : List Char) (c : Char)
    (rest : List Char) (h : matchTop r (c :: rest) = []) :
    pySubAux (f + 1) r p (c :: rest) = c :: pySubAux f r p rest := by
  simp only [pySubAux, h, List.head?_nil]

theorem pySubAux_step_match (f : Nat) (r : Regex) (p : List Char) (s s2 : List Char)
    (h : matchTop r s = [s2]) (hlt : s2.length < s.length) :
    pySubAux (f + 1) r p s = p ++ pySubAux f r p s2 := by
  simp only [pySubAux, h, List.head?_cons]
  rw [if_pos hlt]

theorem pySubAux_global (s0 s1 c1 c2 : Char) (h0 : s0 ≠ c1) (h1 : s1 ≠ c1) (p : List Char) :
    ∀ k fuel, 4 * k < fuel →
      pySubAux fuel (litCC c1 c2) p (listRep [s0, s1, c1, c2] k)
        = listRep ([s0, s1] ++ p) k := by
  intro k
  induction k with
  | zero =>
    intro fuel hfuel
    obtain ⟨f, rfl⟩ : ∃ f, fuel = f + 1 := ⟨fuel - 1, by omega⟩
    show pySubAux (f + 1) (litCC c1 c2) p [] = []
    simp [pySubAux, matchTop_cc, ccMatch]
  | succ n ih =>
    intro fuel hfuel
    obtain ⟨f, rfl⟩ : ∃ f, fuel = f + 4 := ⟨fuel - 4, by omega⟩
    show pySubAux (f + 4) (litCC c1 c2) p (s0 :: s1 :: c1 :: c2 :: listRep [s0, s1, c1, c2] n)
        = (s0 :: s1 :: p) ++ listRep ([s0, s1] ++ p) n
    have e1 : matchTop (litCC c1 c2) (s0 :: s1 :: c1 :: c2 :: listRep [s0, s1, c1, c2] n)
        = [] := by rw [matchTop_cc]; simp [ccMatch, h0]
    have e2 : matchTop (litCC c1 c2) (s1 :: c1 :: c2 :: listRep [s0, s1, c1, c2] n)
        = [] := by rw [matchTop_cc]; simp [ccMatch, h1]
    have e3 : matchTop (litCC c1 c2) (c1 :: c2 :: listRep [s0, s1, c1, c2] n)
        = [listRep [s0, s1, c1, c2] n] := by rw [matchTop_cc]; simp [ccMatch]
    rw [show f + 4 = f + 3 + 1 from rfl, pySubAux_step_nomatch (f + 3) _ _ _ _ e1]
    rw [show f + 3 = f + 2 + 1 from rfl, pySubAux_step_nomatch (f + 2) _ _ _ _ e2]
    rw [show f + 2 = f + 1 + 1 from rfl,
      pySubAux_step_match (f + 1) _ _ _ _ e3 (by simp only [List.length_cons]; omega)]
    rw [ih (f + 1) (by omega)]
    simp

/-! ### Helper lemmas: the batch loop -/

theorem runLoop_abort (fetch : String → Except String PyResponse) :
    ∀ (items : List (String × String)) (k : Nat) (hk : k < items.length) (e : String),
      (∀ j (hj : j < items.length), j < k → (fetch (items.get ⟨j, hj⟩).1).isOk = true) →
      fetch (items.get ⟨k, hk⟩).1 = Except.error e →
        attemptsLoop fetch items = (items.take (k + 1)).map Prod.fst
      ∧ (runLoop fetch items).2.2 = some e
      ∧ (runLoop fetch items).2.1 = (items.take k).map (fun it => LogEntry.renamed it.2) := by
  intro items
  induction items with
  | nil => intro k hk; simp at hk
  | cons it rest ih =>
    intro k hk e hpre herr
    obtain ⟨url, fn⟩ := it
    cases k with
    | zero =>
      simp only [List.get] at herr
      refine ⟨?_, ?_, ?_⟩ <;> simp [attemptsLoop, runLoop, herr]
    | succ k2 =>
      have hok : (fetch url).isOk = true := by
        have := hpre 0 (by simp) (by omega)
        simpa [List.get] using this
      cases hf : fetch url with
      | error e2 => rw [hf] at hok; simp [Except.isOk, Except.toBool] at hok
      | ok r =>
        have hk2 : k2 < rest.length := by simpa using hk
        have hpre2 : ∀ j (hj : j < rest.length), j < k2 →
            (fetch (rest.get ⟨j, hj⟩).1).isOk = true := by
          intro j hj hjk
          have := hpre (j + 1) (by simpa using hj) (by omega)
          simpa [List.get] using this
        have herr2 : fetch (rest.get ⟨k2, hk2⟩).1 = Except.error e := by
          simpa [List.get] using herr
        obtain ⟨c1, c2, c3⟩ := ih k2 hk2 e hpre2 herr2
        refine ⟨?_, ?_, ?_⟩
        · simp [attemptsLoop, hf, c1]
        · simp [runLoop, hf, c2]
        · simp [runLoop, hf, c3]

theorem attemptsLoop_all_ok (fetch : String → Except String PyResponse)
    (h : ∀ u, (fetch u).isOk = true) :
    ∀ items, attemptsLoop fetch items = items.map Prod.fst := by
  intro items
  induction items with
  | nil => rfl
  | cons it rest ih =>
    obtain ⟨u, f⟩ := it
    cases hf : fetch u with
    | error e => have h2 := h u; rw [hf] at h2; simp [Except.isOk, Except.toBool] at h2
    | ok r => simp [attemptsLoop, hf, ih]

theorem map_flatMapL {α β γ : Type} (g : β → γ) (f : α → List β) :
    ∀ l : List α, (flatMapL f l).map g = flatMapL (fun a => (f a).map g) l := by
  intro l
  induction l with
  | nil => rfl
  | cons a as ih => simp [flatMapL, ih]

theorem mem_pyRange (a b i : Nat) : i ∈ pyRange a b ↔ (a ≤ i ∧ i < b) := by
  simp only [pyRange, List.mem_map, List.mem_range]
  constructor
  · rintro ⟨j, hj, rfl⟩; omega
  · intro h; exact ⟨i - a, by omega, by omega⟩

theorem pyRange_pairwise (a b : Nat) : List.Pairwise (· < ·) (pyRange a b) := by
  unfold pyRange
  rw [List.pairwise_map]
  exact (List.pairwise_lt_range (b - a)).imp (fun h => by omega)

theorem runLoop_overrideStatus (s : Nat) (fetch : String → Except String PyResponse) :
    ∀ items, runLoop (overrideStatus s fetch) items = runLoop fetch items := by
  intro items
  induction items with
  | nil => rfl
  | cons it rest ih =>
    obtain ⟨u, f⟩ := it
    cases hf : fetch u with
    | error e => simp [runLoop, overrideStatus, hf]
    | ok r => simp [runLoop, overrideStatus, hf, ih]

theorem runLoop_mem (fetch : String → Except String PyResponse) :
    ∀ (pre : List (String × String)) (url fn : String) (rest : List (String × String))
      (r : PyResponse),
      (∀ it ∈ pre, (fetch it.1).isOk = true) → fetch url = Except.ok r →
        (fn, r.content) ∈ (runLoop fetch (pre ++ (url, fn) :: rest)).1
      ∧ LogEntry.renamed fn ∈ (runLoop fetch (pre ++ (url, fn) :: rest)).2.1 := by
  intro pre
  induction pre with
  | nil =>
    intro url fn rest r _ hr
    refine ⟨?_, ?_⟩ <;> simp [runLoop, hr]
  | cons it pre2 ih =>
    intro url fn rest r hpre hr
    obtain ⟨u, f⟩ := it
    have hok : (fetch u).isOk = true := hpre (u, f) (by simp)
    cases hf : fetch u with
    | error e => rw [hf] at hok; simp [Except.isOk, Except.toBool] at hok
    | ok r2 =>
      have h2 := ih url fn rest r (fun it2 hit => hpre it2 (by simp [hit])) hr
      refine ⟨?_, ?_⟩ <;> simp [runLoop, hf]
      · exact Or.inr h2.1
      · exact Or.inr h2.2

/-! ### Helper lemmas: filename building -/

theorem findIdx?_none_of (p : Char → Bool) :
    ∀ (l : List Char) (st : Nat), (∀ x ∈ l, p x = false) → List.findIdx? p l st = none := by
  intro l
  induction l with
  | nil => intro st _; rfl
  | cons a t ih =>
    intro st h
    show (if p a then some st else List.findIdx? p t (st + 1)) = none
    rw [h a (by simp)]
    simpa using ih (st + 1) (fun x hx => h x (by simp [hx]))

theorem pyWithSuffix_no_dot (s ext : String) (h : ('.') ∉ s.data) :
    pyWithSuffix s ext = s ++ ext := by
  unfold pyWithSuffix
  rw [findIdx?_none_of _ _ 0 ?hp]
  case hp =>
    intro x hx
    have hxs : x ∈ s.data := by simpa using hx
    have hne : x ≠ '.' := fun he => h (he ▸ hxs)
    simpa using hne

theorem pyJoin_not_mem (sep : String) (c : Char) :
    ∀ l : List String, (∀ s ∈ l, c ∉ s.data) → c ∉ sep.data → c ∉ (pyJoin sep l).data := by
  intro l
  induction l with
  | nil => intro _ _; simp [pyJoin]
  | cons s t ih =>
    intro h hsep
    cases t with
    | nil => exact h s (by simp)
    | cons s2 u =>
      show c ∉ (s ++ sep ++ pyJoin sep (s2 :: u)).data
      rw [data_append, data_append]
      intro hc
      rcases List.mem_append.mp hc with hc | hc
      · rcases List.mem_append.mp hc with hc | hc
        · exact h s (by simp) hc
        · exact hsep hc
      · exact ih (fun x hx => h x (by simp [hx])) hsep hc

theorem noDot_appendIfYear (l : List String) (y : Option Nat)
    (h : ∀ s ∈ l, ('.') ∉ s.data) : ∀ s ∈ appendIfYear l y, ('.') ∉ s.data := by
  intro s hs
  cases y with
  | none => exact h s hs
  | some y0 =>
    simp only [appendIfYear] at hs
    by_cases hy : y0 ≠ 0
    · rw [if_pos hy] at hs
      rcases List.mem_append.mp hs with hs | hs
      · exact h s hs
      · have hse : s = pyStr y0 := by simpa using hs
        subst hse
        intro hc
        obtain ⟨d, hd, he⟩ := pyStr_mem y0 _ hc
        exact (digitChar_not_special hd).2.2 he.symm
    · rw [if_neg hy] at hs; exact h s hs

theorem noDot_appendIfVol (l : List String) (v : Option String)
    (h : ∀ s ∈ l, ('.') ∉ s.data)
    (hv : ∀ v0, v = some v0 → ('.') ∉ v0.data) :
    ∀ s ∈ appendIfVol l v, ('.') ∉ s.data := by
  intro s hs
  cases v with
  | none => exact h s hs
  | some v0 =>
    simp only [appendIfVol] at hs
    by_cases hne : v0 ≠ ""
    · rw [if_pos hne] at hs
      rcases List.mem_append.mp hs with hs | hs
      · exact h s hs
      · have hse : s = "vol_" ++ v0 := by simpa using hs
        subst hse
        rw [data_append]
        intro hc
        rcases List.mem_append.mp hc with hc | hc
        · revert hc; decide
        · exact hv v0 rfl hc
    · rw [if_neg hne] at hs; exact h s hs

theorem noDot_appendIfStr (l : List String) (p : Option String)
    (h : ∀ s ∈ l, ('.') ∉ s.data)
    (hp : ∀ p0, p = some p0 → ('.') ∉ p0.data) :
    ∀ s ∈ appendIfStr l p, ('.') ∉ s.data := by
  intro s hs
  cases p with
  | none => exact h s hs
  | some p0 =>
    simp only [appendIfStr] at hs
    by_cases hne : p0 ≠ ""
    · rw [if_pos hne] at hs
      rcases List.mem_append.mp hs with hs | hs
      · exact h s hs
      · have hse : s = p0 := by simpa using hs
        subst hse
        exact hp s rfl
    · rw [if_neg hne] at hs; exact h s hs

theorem noDot_pad4_locNum (w i : Nat) : ('.') ∉ (pad4 (locNum w i)).data := by
  rw [pad4_locNum_data]
  intro hc
  rcases List.mem_append.mp hc with hc | hc
  · exact absurd (List.eq_of_mem_replicate hc) (by decide)
  · obtain ⟨d, hd, he⟩ := pyStr_mem i _ hc
    exact (digitChar_not_special hd).2.2 he.symm

theorem appendIfNum_some (l : List String) (n : String) (h : n ≠ "") :
    appendIfNum l (some n) = l ++ [pad4 n] := by
  simp [appendIfNum, h]

theorem pyJoin_snoc (sep : String) :
    ∀ (l : List String) (a : String), l ≠ [] →
      pyJoin sep (l ++ [a]) = pyJoin sep l ++ sep ++ a := by
  intro l
  induction l with
  | nil => intro a h; exact absurd rfl h
  | cons s t ih =>
    intro a _
    cases t with
    | nil => rfl
    | cons s2 u =>
      show s ++ sep ++ pyJoin sep ((s2 :: u) ++ [a]) = (s ++ sep ++ pyJoin sep (s2 :: u)) ++ sep ++ a
      rw [ih a (by simp)]
      simp [String.append_assoc]

theorem loc_fixed_noDot (segs : FilenameSegments) (part : Option String)
    (hdf : dotFreeB segs part = true) :
    ∀ s ∈ appendIfStr
        (appendIfVol (appendIfVol (appendIfYear segs.name segs.year) segs.vol) segs.vol)
        part,
      ('.') ∉ s.data := by
  have hsplit := hdf
  rw [dotFreeB.eq_def] at hsplit
  simp only [Bool.and_eq_true] at hsplit
  obtain ⟨⟨h1, h2⟩, h3⟩ := hsplit
  have hname : ∀ s ∈ segs.name, ('.') ∉ s.data := by
    intro s hs
    have := List.all_eq_true.mp h1 s hs
    simpa [noDotB] using this
  have hvol : ∀ v0, segs.vol = some v0 → ('.') ∉ v0.data := by
    intro v0 hv
    rw [hv] at h2
    simpa [noDotB] using h2
  have hpart : ∀ p0, part = some p0 → ('.') ∉ p0.data := by
    intro p0 hp
    rw [hp] at h3
    simpa [noDotB] using h3
  exact noDot_appendIfStr _ _
    (noDot_appendIfVol _ _ (noDot_appendIfVol _ _ (noDot_appendIfYear _ _ hname) hvol) hvol)
    hpart

theorem locImageFilename_inj (segs : FilenameSegments) (part : Option String) (w : Nat)
    (hdf : dotFreeB segs part = true) {i j : Nat}
    (heq : locImageFilename segs part w i = locImageFilename segs part w j) : i = j := by
  have hne : (".jpg" : String) ≠ ".log" := by decide
  unfold locImageFilename loc_create_filename at heq
  rw [if_neg hne, if_neg hne] at heq
  rw [appendIfNum_some _ _ (locNum_ne_empty w i),
    appendIfNum_some _ _ (locNum_ne_empty w j)] at heq
  have hFnd := loc_fixed_noDot segs part hdf
  have hnd : ∀ n : Nat,
      ('.') ∉ (pyJoin ("-")
        (appendIfStr
          (appendIfVol (appendIfVol (appendIfYear segs.name segs.year) segs.vol) segs.vol)
          part ++ [pad4 (locNum w n)])).data := by
    intro n
    apply pyJoin_not_mem
    · intro s hs
      rcases List.mem_append.mp hs with hs | hs
      · exact hFnd s hs
      · have hse : s = pad4 (locNum w n) := by simpa using hs
        subst hse
        exact noDot_pad4_locNum w n
    · decide
  rw [pyWithSuffix_no_dot _ _ (hnd i), pyWithSuffix_no_dot _ _ (hnd j)] at heq
  have hdata := congrArg String.data heq
  rw [data_append, data_append] at hdata
  have hJs := string_eq_of_data (List.append_cancel_right hdata)
  cases hFc : appendIfStr
      (appendIfVol (appendIfVol (appendIfYear segs.name segs.year) segs.vol) segs.vol)
      part with
  | nil =>
    rw [hFc] at hJs
    simp only [List.nil_append] at hJs
    exact pad4_locNum_inj hJs
  | cons s0 t0 =>
    rw [hFc, pyJoin_snoc _ _ _ (by simp), pyJoin_snoc _ _ _ (by simp)] at hJs
    have hdata2 := congrArg String.data hJs
    simp only [data_append, List.append_assoc] at hdata2
    exact pad4_locNum_inj
      (string_eq_of_data (List.append_cancel_left (List.append_cancel_left hdata2)))

theorem sanbornImageFilename_inj (m : Municipality) (part : Option String) (pad : Bool)
    {i j : Nat}
    (heq : sanbornImageFilename m part pad i = sanbornImageFilename m part pad j) : i = j := by
  unfold sanbornImageFilename sanborn_create_filename at heq
  have hdata := congrArg String.data heq
  simp only [data_append, List.append_assoc] at hdata
  have h2 := List.append_cancel_left (List.append_cancel_left hdata)
  have h3 := List.append_cancel_right h2
  rw [sanbornNum_eq_locNum, sanbornNum_eq_locNum] at h3
  exact pad4_locNum_inj (string_eq_of_data h3)

/-! ### Claim theorems -/

/-- Claim C5: for every non-negative index `i`, `zfill_width` and YAML
`prefix`, the Identifier Generator's replacement token is the `prefix`
concatenated with a numeral of length at least `zfill_width`; the numeral
equals `str(i)` left-padded with `'0'` when `str(i)` is shorter than the
width, equals `str(i)` unchanged otherwise, and always retains `str(i)`
as a suffix — it is never truncated. -/
theorem claim5_replacement_token (pfx : String) (w i : Nat) :
    locRepl pfx w i = pfx ++ locNum w i
  ∧ w ≤ (locNum w i).data.length
  ∧ ((pyStr i).data.length < w →
      (locNum w i).data = List.replicate (w - (pyStr i).data.length) '0' ++ (pyStr i).data)
  ∧ (w ≤ (pyStr i).data.length → locNum w i = pyStr i)
  ∧ List.IsSuffix (pyStr i).data (locNum w i).data := by
  refine ⟨rfl, ?_, ?_, ?_, ?_⟩
  · rw [locNum_data]
    simp only [List.length_append, List.length_replicate]
    omega
  · intro _
    exact locNum_data w i
  · intro hw
    apply string_eq_of_data
    rw [locNum_data, Nat.sub_eq_zero_of_le hw]
    simp
  · exact ⟨List.replicate (w - (pyStr i).data.length) '0', (locNum_data w i).symm⟩

/-- Witness for C5 at `prefix = "p"`, `zfill_width = 6`, `i = 42`. -/
theorem claim5_replacement_token_witness :
    (pyStr 42).data.length < 6
  ∧ (locNum 6 42).data = List.replicate (6 - (pyStr 42).data.length) '0' ++ (pyStr 42).data :=
  ⟨by decide, (claim5_replacement_token ("p") 6 42).2.2.1 (by decide)⟩

/-- Claim C6: if the group's regex matches nowhere in `default_path`, the
resource url of either script is `host ++ default_path` unchanged — a
silent no-op substitution, not an error. -/
theorem claim6_no_match_no_op (host pfx dp : String) (rgx : Regex) (w i : Nat) (pad : Bool)
    (gpart : Option String) (gstart gstop : Nat)
    (h : matchesNowhereB rgx dp.data = true) :
    locUrl host ⟨pfx, gpart, dp, rgx, w, gstart, gstop⟩ i = host ++ dp
  ∧ sanbornUrl host pfx rgx dp pad i = host ++ dp := by
  constructor
  · show host ++ pySub rgx (locRepl pfx w i) dp = host ++ dp
    rw [pySub_id _ _ _ h]
  · show host ++ pySub rgx (pfx ++ sanbornNum pad i) dp = host ++ dp
    rw [pySub_id _ _ _ h]

/-- Witness for C6: the regex `Z` matches nowhere in `/abc`. -/
theorem claim6_no_match_no_op_witness :
    matchesNowhereB (Regex.char 'Z') ("/abc").data = true
  ∧ locUrl ("h") ⟨("p"), none, ("/abc"), Regex.char 'Z', 4, 0, 2⟩ 1 = ("h") ++ ("/abc") :=
  ⟨by decide,
   (claim6_no_match_no_op ("h") ("p") ("/abc") (Regex.char 'Z') 4 1 true none 0 2
     (by decide)).1⟩

/-- Claim C10: the sanborn url pipeline equals the loc_maps one under the
schema mapping — `pad_num = true` corresponds to `zfill_width = 4` and
`pad_num = false` to `zfill_width = 0` — for every host, prefix, regex,
default path and index. -/
theorem claim10_pipelines_equivalent (host pfx dp : String) (rgx : Regex) (i : Nat)
    (gpart : Option String) (gstart gstop : Nat) :
    sanbornUrl host pfx rgx dp true i = locUrl host ⟨pfx, gpart, dp, rgx, 4, gstart, gstop⟩ i
  ∧ sanbornUrl host pfx rgx dp false i = locUrl host ⟨pfx, gpart, dp, rgx, 0, gstart, gstop⟩ i := by
  constructor
  · show host ++ pySub rgx (pfx ++ sanbornNum true i) dp
        = host ++ pySub rgx (locRepl pfx 4 i) dp
    rw [sanbornNum_eq_locNum]
    rfl
  · show host ++ pySub rgx (pfx ++ sanbornNum false i) dp
        = host ++ pySub rgx (locRepl pfx 0 i) dp
    rw [sanbornNum_eq_locNum]
    rfl

/-- Claim C4 (counterexample): with `zfill_width = 6` and index 1 the
numeral in the image filename is `000001`, not the claimed width-4-minimum
rendering `0001` of `str(1)` — the filename numeral does depend on the
group's `zfill_width`. -/
theorem claim4_counterexample :
    locImageFilename ⟨[("m")], none, none⟩ none 6 1 = "m-000001.jpg"
  ∧ locImageFilename ⟨[("m")], none, none⟩ none 6 1 ≠ "m-0001.jpg"
  ∧ pad4 (locNum 6 1) ≠ pad4 (pyStr 1) := by
  refine ⟨by decide, by decide, by decide⟩

/-- Claim C4 (amended): the numeral appended to the image filename is
`str(i)` left-padded with `'0'` to width `max 4 (max zfill_width |str(i)|)`
— the minimum of 4 is fixed, but the numeral keeps the `zfill_width`
padding applied in `main`, so it depends on `zfill_width` once that
exceeds 4; for `zfill_width ≤ 4` it coincides with the claimed
width-4-minimum rendering of `str(i)`. -/
theorem claim4_filename_numeral (w i : Nat) :
    (pad4 (locNum w i)).data
      = List.replicate (max 4 (max w (pyStr i).data.length) - (pyStr i).data.length) '0'
          ++ (pyStr i).data
  ∧ 4 ≤ (pad4 (locNum w i)).data.length
  ∧ (w ≤ 4 → pad4 (locNum w i) = pad4 (pyStr i)) := by
  refine ⟨pad4_locNum_data w i, ?_, ?_⟩
  · rw [pad4_locNum_data]
    simp only [List.length_append, List.length_replicate]
    omega
  · intro hw
    apply string_eq_of_data
    rw [pad4_locNum_data]
    have h0 : (pad4 (pyStr i)).data
        = List.replicate (max 4 (0 + (pyStr i).data.length) - (pyStr i).data.length) '0'
            ++ (pyStr i).data := by
      have h1 := pad4_repl_data 0 i
      rwa [show String.mk (List.replicate 0 '0' ++ (pyStr i).data) = pyStr i from
        string_eq_of_data (by simp)] at h1
    rw [h0]
    have harith : max 4 (max w (pyStr i).data.length)
        = max 4 (0 + (pyStr i).data.length) := by omega
    rw [harith]

/-- Witness for the C4 amendment at `zfill_width = 2`, `i = 123`. -/
theorem claim4_filename_numeral_witness :
    2 ≤ 4 ∧ pad4 (locNum 2 123) = pad4 (pyStr 123) :=
  ⟨by decide, (claim4_filename_numeral 2 123).2.2 (by decide)⟩

/-- Claim C3 (code bug): for image filenames `loc_maps.py` appends the
`vol_` segment twice (its lines 79–80 run for every extension and lines
86–87 repeat the append for non-log files), so a volume-bearing spec
yields `...-vol_2-vol_2-...`; the sibling sanborn builder appends it once,
as the claim and spec §4.2 state. -/
theorem claim3_loc_vol_segment_duplicated :
    loc_create_filename ⟨[("a"), ("b")], some 1925, some ("2")⟩ none (some ("0007")) (".jpg")
      = "a-b-1925-vol_2-vol_2-0007.jpg"
  ∧ sanborn_create_filename ⟨("a"), ("b"), 1925, some ("2"), ("jpg")⟩ ("0007") none
      = "Sanborn-LOC-a-b-1925-vol_2-0007.jpg" := by
  refine ⟨by decide, by decide⟩

/-- Claim C7 (counterexample): the pattern `_X` matches at two positions of
`/a_X/b_X`, yet `re.sub` replaces both matches — the result is `/ap7/bp7`,
not the claimed first-match-only `/ap7/b_X`. -/
theorem claim7_counterexample :
    ((List.range (("/a_X/b_X").data.length + 1)).filter
        (fun k => !(matchTop (litCC '_' 'X') (("/a_X/b_X").data.drop k)).isEmpty)).length = 2
  ∧ pySub (litCC '_' 'X') ("p7") ("/a_X/b_X") = "/ap7/bp7"
  ∧ pySub (litCC '_' 'X') ("p7") ("/a_X/b_X") ≠ "/ap7/b_X" := by
  refine ⟨by decide, by decide, by decide⟩

/-- Claim C7 (amended): the substitution is global: on a default path made
of `k` copies of `/a_X`, every one of the `k` matches of `_X` (not only the
first) is replaced by the replacement token, for every replacement and
every `k`. -/
theorem claim7_substitution_global (p : String) (k : Nat) :
    pySub (litCC '_' 'X') p (String.mk (listRep ['/', 'a', '_', 'X'] k))
      = String.mk (listRep (['/', 'a'] ++ p.data) k) := by
  apply string_eq_of_data
  show pySubAux ((listRep ['/', 'a', '_', 'X'] k).length + 1) (litCC '_' 'X') p.data
      (listRep ['/', 'a', '_', 'X'] k) = listRep (['/', 'a'] ++ p.data) k
  have hlen : (listRep ['/', 'a', '_', 'X'] k).length = 4 * k := by
    rw [listRep_length]
    simp
  exact pySubAux_global '/' 'a' '_' 'X' (by decide) (by decide) p.data k _
    (by rw [hlen]; omega)

/-- Claim C9 (counterexample): with a base name segment containing a dot,
`Path.with_suffix` truncates the joined name at that dot, so two distinct
indices (1 and 2) yield the identical filename `a.jpg` — the loc_maps
builder is not injective in the index for every NamingSpec. -/
theorem claim9_counterexample :
    locImageFilename ⟨[("a.b")], none, none⟩ none 0 1
      = locImageFilename ⟨[("a.b")], none, none⟩ none 0 2
  ∧ (1 : Nat) ≠ 2
  ∧ locImageFilename ⟨[("a.b")], none, none⟩ none 0 1 = "a.jpg" := by
  refine ⟨by decide, by decide, by decide⟩

/-- Claim C9 (amended): both builders are deterministic (pure functions of
their inputs); within one group the loc_maps builder is injective in the
index provided no naming segment (base, volume, part) contains a `'.'`
(otherwise `Path.with_suffix` truncates at the last dot), and the sanborn
builder — plain string concatenation — is injective unconditionally. -/
theorem claim9_builder_deterministic_injective
    (segs : FilenameSegments) (part : Option String) (w : Nat)
    (m : Municipality) (pad : Bool) (i j : Nat) :
    locImageFilename segs part w i = locImageFilename segs part w i
  ∧ sanbornImageFilename m part pad i = sanbornImageFilename m part pad i
  ∧ (dotFreeB segs part = true → i ≠ j →
      locImageFilename segs part w i ≠ locImageFilename segs part w j)
  ∧ (i ≠ j → sanbornImageFilename m part pad i ≠ sanbornImageFilename m part pad j) := by
  refine ⟨rfl, rfl, ?_, ?_⟩
  · intro hdf hij heq
    exact hij (locImageFilename_inj segs part w hdf heq)
  · intro hij heq
    exact hij (sanbornImageFilename_inj m part pad heq)

/-- Witness for the C9 amendment on dot-free inputs and indices 1 ≠ 2. -/
theorem claim9_builder_deterministic_injective_witness :
    dotFreeB ⟨[("m")], none, none⟩ none = true
  ∧ (1 : Nat) ≠ 2
  ∧ locImageFilename ⟨[("m")], none, none⟩ none 4 1
      ≠ locImageFilename ⟨[("m")], none, none⟩ none 4 2
  ∧ sanbornImageFilename ⟨("a"), ("b"), 1925, none, ("jpg")⟩ none true 1
      ≠ sanbornImageFilename ⟨("a"), ("b"), 1925, none, ("jpg")⟩ none true 2 :=
  ⟨by decide, by decide,
   (claim9_builder_deterministic_injective ⟨[("m")], none, none⟩ none 4
     ⟨("a"), ("b"), 1925, none, ("jpg")⟩ true 1 2).2.2.1 (by decide) (by decide),
   (claim9_builder_deterministic_injective ⟨[("m")], none, none⟩ none 4
     ⟨("a"), ("b"), 1925, none, ("jpg")⟩ true 1 2).2.2.2 (by decide)⟩

/-- Claim C2: the runner never inspects the status code — overriding every
response's status (for instance to a 4xx/5xx) leaves the whole run
unchanged — and for every reached item whose fetch returns a response, the
response body is persisted verbatim under the built filename and a success
(`Renamed file to ...`) log line is emitted. -/
theorem claim2_status_not_inspected (fetch : String → Except String PyResponse) (s : Nat)
    (pre rest : List (String × String)) (url fn : String) (r : PyResponse)
    (hpre : ∀ it ∈ pre, (fetch it.1).isOk = true)
    (hr : fetch url = Except.ok r) :
    (∀ items, runLoop (overrideStatus s fetch) items = runLoop fetch items)
  ∧ (fn, r.content) ∈ (runLoop fetch (pre ++ (url, fn) :: rest)).1
  ∧ LogEntry.renamed fn ∈ (runLoop fetch (pre ++ (url, fn) :: rest)).2.1 := by
  refine ⟨runLoop_overrideStatus s fetch, ?_, ?_⟩
  · exact (runLoop_mem fetch pre url fn rest r hpre hr).1
  · exact (runLoop_mem fetch pre url fn rest r hpre hr).2

/-- Witness for C2: the 404 body `ERRPAGE` of `u2` is written under `f2`
and logged as a success, after one earlier successful item. -/
theorem claim2_status_not_inspected_witness :
    ((("f2"), ("ERRPAGE")) : String × String)
      ∈ (runLoop demoFetch ([(("u1"), ("f1"))] ++ (("u2"), ("f2")) :: [])).1
  ∧ LogEntry.renamed ("f2")
      ∈ (runLoop demoFetch ([(("u1"), ("f1"))] ++ (("u2"), ("f2")) :: [])).2.1 :=
  ⟨(claim2_status_not_inspected demoFetch 500 [(("u1"), ("f1"))] [] ("u2") ("f2")
      ⟨404, ("ERRPAGE")⟩ (by decide) (by rfl)).2.1,
   (claim2_status_not_inspected demoFetch 500 [(("u1"), ("f1"))] [] ("u2") ("f2")
      ⟨404, ("ERRPAGE")⟩ (by decide) (by rfl)).2.2⟩

/-- Claim C1 (counterexample): a raised network error at the second item of
the first group aborts the whole run (`main` installs no exception
handler): the remaining index of that group and the whole second group are
never attempted, and no terminal end record is logged. -/
theorem claim1_counterexample :
    attemptsLoop demoFetchBoom (locItems ("h") demoSegs demoPathsA)
      = [("h/Ap0001"), ("h/Ap0002")]
  ∧ (locItems ("h") demoSegs demoPathsA).map Prod.fst
      = [("h/Ap0001"), ("h/Ap0002"), ("h/Bp0001")]
  ∧ LogEntry.endRun ∉ (locRun demoFetchBoom ("h") demoSegs demoPathsA).2.1 := by
  refine ⟨by decide, by decide, by decide⟩

/-- Claim C1 (amended): when the fetch of the `k`-th item raises a
network-level error (all earlier fetches returning responses), the runner
does not catch it: exactly the first `k + 1` urls are attempted (nothing
after the failing one, in any group), the exception propagates, the run
log holds the start record and the `k` success lines only, and the
terminal end record is never logged. -/
theorem claim1_fetch_error_aborts_run (fetch : String → Except String PyResponse)
    (host : String) (segs : FilenameSegments) (paths : List LocPathGroup)
    (k : Nat) (e : String) (hk : k < (locItems host segs paths).length)
    (hpre : ∀ j (hj : j < (locItems host segs paths).length), j < k →
      (fetch ((locItems host segs paths).get ⟨j, hj⟩).1).isOk = true)
    (herr : fetch ((locItems host segs paths).get ⟨k, hk⟩).1 = Except.error e) :
    attemptsLoop fetch (locItems host segs paths)
      = ((locItems host segs paths).take (k + 1)).map Prod.fst
  ∧ (locRun fetch host segs paths).2.2 = some e
  ∧ LogEntry.endRun ∉ (locRun fetch host segs paths).2.1
  ∧ (locRun fetch host segs paths).2.1
      = LogEntry.startRun ::
          ((locItems host segs paths).take k).map (fun it => LogEntry.renamed it.2) := by
  obtain ⟨c1, c2, c3⟩ := runLoop_abort fetch (locItems host segs paths) k hk e hpre herr
  have hexc : (locRun fetch host segs paths).2.2 = some e := by
    show (runLoop fetch (locItems host segs paths)).2.2 = some e
    exact c2
  have hlog : (locRun fetch host segs paths).2.1
      = LogEntry.startRun ::
          ((locItems host segs paths).take k).map (fun it => LogEntry.renamed it.2) := by
    show (LogEntry.startRun :: (runLoop fetch (locItems host segs paths)).2.1)
        ++ (match (runLoop fetch (locItems host segs paths)).2.2 with
            | none => [LogEntry.endRun]
            | some _ => []) = _
    rw [c2, c3]
    simp
  refine ⟨c1, hexc, ?_, hlog⟩
  rw [hlog]
  intro hmem
  rcases List.mem_cons.mp hmem with h | h
  · exact LogEntry.noConfusion h
  · obtain ⟨it, _, hit⟩ := List.mem_map.mp h
    exact LogEntry.noConfusion hit

/-- Witness for the C1 amendment: every fetch of `demoFetchErr` raises, so
the run aborts at the very first item with no end record. -/
theorem claim1_fetch_error_aborts_run_witness :
    (locRun demoFetchErr ("h") demoSegs demoPathsOne).2.2 = some ("boom")
  ∧ LogEntry.endRun ∉ (locRun demoFetchErr ("h") demoSegs demoPathsOne).2.1 :=
  ⟨(claim1_fetch_error_aborts_run demoFetchErr ("h") demoSegs demoPathsOne 0 ("boom")
      (by decide) (fun j hj hjk => absurd hjk (by omega)) (by rfl)).2.1,
   (claim1_fetch_error_aborts_run demoFetchErr ("h") demoSegs demoPathsOne 0 ("boom")
      (by decide) (fun j hj hjk => absurd hjk (by omega)) (by rfl)).2.2.1⟩

/-- Claim C8 (counterexample): the claim fails without a no-failure
proviso — a raised fetch at the first index means the pair (group, 2) is
never attempted at all, although 2 lies in `[index_start, index_stop)`. -/
theorem claim8_counterexample :
    attemptsLoop demoFetchDown (locItems ("h") demoSegs demoPathsC) = [("h/Cq1")]
  ∧ (locItems ("h") demoSegs demoPathsC).map Prod.fst = [("h/Cq1"), ("h/Cq2")]
  ∧ ("h/Cq2") ∉ attemptsLoop demoFetchDown (locItems ("h") demoSegs demoPathsC) := by
  refine ⟨by decide, by decide, by decide⟩

/-- Claim C8 (amended): provided every fetch returns a response, the runner
attempts exactly one fetch per (group, index) pair — the attempt sequence
is the concatenation, in group order, of the urls of each group's
ascending index range; the range holds exactly the indices
`index_start ≤ i < index_stop` (so `index_stop` is never attempted) in
strictly increasing order. -/
theorem claim8_iteration_order (fetch : String → Except String PyResponse)
    (host : String) (segs : FilenameSegments) (paths : List LocPathGroup)
    (hok : ∀ u, (fetch u).isOk = true) :
    attemptsLoop fetch (locItems host segs paths)
      = flatMapL (fun g => (pyRange g.index_start g.index_stop).map (fun i => locUrl host g i))
          paths
  ∧ (∀ a b i : Nat, i ∈ pyRange a b ↔ (a ≤ i ∧ i < b))
  ∧ (∀ a b : Nat, List.Pairwise (· < ·) (pyRange a b)) := by
  refine ⟨?_, mem_pyRange, pyRange_pairwise⟩
  rw [attemptsLoop_all_ok fetch hok]
  unfold locItems
  rw [map_flatMapL]
  congr 1
  funext g
  rw [List.map_map]
  rfl

/-- Witness for the C8 amendment with an all-ok oracle on `demoPathsC`. -/
theorem claim8_iteration_order_witness :
    attemptsLoop demoFetchOk (locItems ("h") demoSegs demoPathsC)
      = flatMapL
          (fun g => (pyRange g.index_start g.index_stop).map (fun i => locUrl ("h") g i))
          demoPathsC :=
  (claim8_iteration_order demoFetchOk ("h") demoSegs demoPathsC (fun _ => rfl)).1
